import Mathlib

/-!
# slack-cmd: the streaming report engine of `main.go`

A shallow embedding of `op` (launch a command, stream its output into
size-bounded chat reports, register the process for cancellation) and of the
reply branch of `run` (cancellation), with the properties of the report
chunker, the process registry and the cancellation handler.

Conventions of the embedding.

* A Go `string` is a Lean `String`; Go's `len(s)` is the number of bytes of the
  UTF-8 encoding, `String.utf8ByteSize` (named `goLen` below). The number of
  characters is `String.length`. A Lean string is a sequence of Unicode
  characters, so the embedding covers the Go strings that are valid UTF-8.
* The chat collaborator is an oracle `api : Nat → String`: `api k` is the
  message id returned by the `k`-th `api.PostMessage` call of one execution
  (the empty string when that post fails, since `op` discards the error).
  Every call made is recorded, in order, in the `calls` field of the state.
* The output of the subprocess is the list of its lines; `scannerTokens` gives
  the tokens that the default `bufio.Scanner` of line 107 yields from it, and
  the read loop runs over those tokens.
* `processList` is the shared registry; the mutex makes each access atomic, so
  an execution's registry accesses are modelled as atomic steps on it.
-/

namespace SlackCmd

/-! ## Strings -/

/-- Go `len(s)` for a string: the number of bytes of its UTF-8 encoding. -/
def goLen (s : String) : Nat := s.utf8ByteSize

/-- Go `strings.Join(elems, sep)`. -/
def stringsJoin : List String → String → String
  | [], _ => ""
  | [a], _ => a
  | a :: b :: rest, sep => a ++ sep ++ stringsJoin (b :: rest) sep

/-- The constant `maxMessageLen` (main.go, line 53). -/
def maxMessageLen : Nat := 4000

/-- The closure `contentFromLines` of `op` (main.go, lines 90-92). -/
def contentFromLines (lines : List String) : String :=
  "```\n" ++ stringsJoin lines "\n" ++ "\n```"

/-- The header line `fmt.Sprintf("execute \"%s\" on %s", text, hostname)` (line 96). -/
def headerLine (text hostname : String) : String :=
  "execute \"" ++ text ++ "\" on " ++ hostname

/-- The output line `fmt.Sprintf("[%d] %s", cmd.Process.Pid, line)` (line 110). -/
def outputLine (pid : Int) (line : String) : String :=
  "[" ++ toString pid ++ "] " ++ line

/-- The termination line `fmt.Sprintf("terminated with %v", cmd.ProcessState.Sys())`
(line 130); the wait status is an unsigned integer, printed in decimal. -/
def terminationLine (status : Nat) : String :=
  "terminated with " ++ toString status

/-! ## The process registry -/

/-- An `os.Process` handle, as far as the program reads it: its `Pid`. -/
structure Process where
  Pid : Int
  deriving DecidableEq, Repr

/-- The global `processList : map[string]*os.Process` (line 60). The program
only ever stores non-nil handles: the store of line 103 is guarded by
`cmd.Process != nil`, and the store of line 122 follows the dereference
`cmd.Process.Pid` of line 110. So a key is present exactly when the Go lookup
`processList[k]` is not nil, and the map is a partial function to handles. -/
abbrev ProcessList := String → Option Process

/-- The map made by `make(map[string]*os.Process)` in `init` (line 74). -/
def ProcessList.empty : ProcessList := fun _ => none

/-- The store `processList[k] = p` (lines 103 and 122). -/
def ProcessList.set (pl : ProcessList) (k : String) (p : Process) : ProcessList :=
  fun t => if t = k then some p else pl t

/-- The call `delete(processList, k)` (line 135). -/
def ProcessList.delete (pl : ProcessList) (k : String) : ProcessList :=
  fun t => if t = k then none else pl t

/-! ## The chat collaborator -/

/-- One call to the chat collaborator. Every content string `op` sends is
`contentFromLines` of a list of lines (the final update of line 131 spells the
same expression out), so a call records that list; the string sent is
`ApiCall.content`. The channel is the same in every call and is left out. -/
inductive ApiCall where
  /-- The call `api.PostMessage(channelID, contentFromLines(lines), params)`. -/
  | PostMessage (lines : List String)
  /-- The call `api.UpdateMessage(channelID, timestamp, contentFromLines(lines))`. -/
  | UpdateMessage (timestamp : String) (lines : List String)
  deriving DecidableEq, Repr

/-- The lines a call formats. -/
def ApiCall.block : ApiCall → List String
  | .PostMessage lines => lines
  | .UpdateMessage _ lines => lines

/-- The content string a call sends. -/
def ApiCall.content (c : ApiCall) : String := contentFromLines c.block

/-- Whether a call creates a new report (`PostMessage`). -/
def ApiCall.isPost : ApiCall → Bool
  | .PostMessage _ => true
  | .UpdateMessage _ _ => false

/-! ## `op` -/

/-- The variables of the goroutine of `op` after `cmd.Start()` succeeded, the
shared registry, and the calls made to the chat collaborator so far. -/
structure OpState where
  lines : List String
  timestamp : String
  usedTimestamps : List String
  processList : ProcessList
  calls : List ApiCall

/-- Lines 94-105 of `op`: the header line, the initial post, the registration
of its id. `text` is the command text after `html.UnescapeString`; `proc` is
`cmd.Process`, which is not nil once `cmd.Start()` returned no error. -/
def opStart (api : Nat → String) (proc : Process) (text hostname : String)
    (pl : ProcessList) : OpState :=
  let lines : List String := [] ++ [headerLine text hostname]
  let timestamp := api 0
  { lines := lines
    timestamp := timestamp
    usedTimestamps := [timestamp]
    processList := pl.set timestamp proc
    calls := [ApiCall.PostMessage lines] }

/-- One iteration of the read loop, lines 109-126 of `op`, for the scanned
`line`. The post of line 118 is the `usedTimestamps.length`-th post of the
execution. -/
def opLoopBody (api : Nat → String) (proc : Process) (st : OpState) (line : String) :
    OpState :=
  let msg := outputLine proc.Pid line
  let lines := st.lines ++ [msg]
  let content := contentFromLines lines
  if goLen content > maxMessageLen then
    let sealed := lines.take (lines.length - 1)
    let lines' := [msg]
    let timestamp' := api st.usedTimestamps.length
    { lines := lines'
      timestamp := timestamp'
      usedTimestamps := st.usedTimestamps ++ [timestamp']
      processList := st.processList.set timestamp' proc
      calls := st.calls ++
        [ApiCall.UpdateMessage st.timestamp sealed, ApiCall.PostMessage lines'] }
  else
    { st with
      lines := lines
      calls := st.calls ++ [ApiCall.UpdateMessage st.timestamp lines] }

/-- The read loop, lines 107-127 of `op`; `outs` are the tokens that
`scanner.Scan()` yields one after the other (`scannerTokens` below gives them
from the output of the subprocess). -/
def opLoop (api : Nat → String) (proc : Process) (st : OpState) (outs : List String) :
    OpState :=
  outs.foldl (opLoopBody api proc) st

/-- The finalizing step, lines 128-137 of `op`: the termination line, the final
update, and the removal of every used id from the registry. -/
def opFinish (status : Nat) (st : OpState) : OpState :=
  let lines := st.lines ++ [terminationLine status]
  { st with
    lines := lines
    processList := st.usedTimestamps.foldl ProcessList.delete st.processList
    calls := st.calls ++ [ApiCall.UpdateMessage st.timestamp lines] }

/-- The goroutine of `op` from the initial post to the end (lines 94-137), when
the scanner yields the tokens `outs` and `cmd.Wait()` then returns with the
wait status `status`. -/
def op (api : Nat → String) (proc : Process) (text hostname : String)
    (outs : List String) (status : Nat) (pl : ProcessList) : OpState :=
  opFinish status (opLoop api proc (opStart api proc text hostname pl) outs)

/-- The constant `bufio.MaxScanTokenSize`: the largest buffer of the scanner
that `bufio.NewScanner` makes (line 107). -/
def maxScanTokenSize : Nat := 64 * 1024

/-- The helper `dropCR` of `bufio.ScanLines`, the split function of that
scanner: one carriage return at the end of the line is dropped. -/
def dropCR (data : String) : String :=
  if data.data.getLast? = some '\r' then String.mk data.data.dropLast else data

/-- The tokens the scanner of lines 107-109 yields when the subprocess writes
the lines `output` (a line is what stands between two newlines). A line that
does not fit the buffer with room to spare, one of `maxScanTokenSize` bytes or
more, makes `scanner.Scan()` return false for good (the error is never read),
so the loop ends there; any other line is yielded without its final carriage
return. -/
def scannerTokens : List String → List String
  | [] => []
  | l :: rest =>
    if goLen l < maxScanTokenSize then dropCR l :: scannerTokens rest else []

/-- The goroutine of `op` from the initial post on (lines 94-137), for a
subprocess that writes the lines `output`. `exit` is the wait status with which
`cmd.Wait()` returns (line 128), `none` when it never returns, as when the
subprocess stays blocked writing to the pipe that the scanner stopped reading:
the final update and the removal from the registry are then never reached. -/
def opRun (api : Nat → String) (proc : Process) (text hostname : String)
    (output : List String) (exit : Option Nat) (pl : ProcessList) : OpState :=
  match exit with
  | some status => op api proc text hostname (scannerTokens output) status pl
  | none => opLoop api proc (opStart api proc text hostname pl) (scannerTokens output)

/-- The effect of one call on the chat, seen as the list of reports in creation
order, each with the lines it currently shows: a `PostMessage` opens a report,
an `UpdateMessage` replaces the lines of the report opened last (`op` only
updates the report of its current `timestamp`, the one it posted last). -/
def recordCall (reports : List (List String)) : ApiCall → List (List String)
  | .PostMessage lines => reports ++ [lines]
  | .UpdateMessage _ lines =>
    match reports with
    | [] => []
    | _ :: _ => reports.dropLast ++ [lines]

/-- The line list of every report block, in creation order, after the calls. -/
def reportBlocks (calls : List ApiCall) : List (List String) :=
  calls.foldl recordCall []

/-- Whether every update among the calls addresses the report posted last
before it, `n` posts having been made before the calls, the `k`-th post of the
execution returning the id `api k`. -/
def updatesAddressLatest (api : Nat → String) : Nat → List ApiCall → Bool
  | _, [] => true
  | n, .PostMessage _ :: rest => updatesAddressLatest api (n + 1) rest
  | n, .UpdateMessage ts _ :: rest =>
    decide (0 < n) && ts == api (n - 1) && updatesAddressLatest api n rest

/-! ## Cancellation: the reply branch of `run` -/

/-- The signals the program sends. -/
inductive Signal where
  | SIGKILL
  deriving DecidableEq, Repr

/-- Negation of a Go `int` (64 bits, two's complement), as in `-process.Pid`
(line 156). -/
def negInt (x : Int) : Int := (-x + 2 ^ 63) % 2 ^ 64 - 2 ^ 63

/-- The fields of `slack.Msg` the program reads. -/
structure Msg where
  Timestamp : String
  deriving DecidableEq, Repr

/-- The fields of `slack.MessageEvent` that `run` reads; `SubMessage` is a
pointer, nil being `none`. -/
structure MessageEvent where
  SubType : String
  Text : String
  Channel : String
  SubMessage : Option Msg
  deriving DecidableEq, Repr

/-- What handling one event does: the registry afterwards, the calls to
`syscall.Kill` (pid argument and signal), and the calls `op(channel, text)`. -/
structure RunEffects where
  processList : ProcessList
  kills : List (Int × Signal)
  launched : List (String × String)

/-- The `*slack.MessageEvent` case of `run`, lines 148-165. `channel` is the
configured channel name; `fresh` is the outcome of the floating-point test
`start < timestamp` of line 159; `ch` is the name of the channel that
`api.GetChannelInfo(event.Channel)` returns, `none` when it returns nil. The
result is `none` when the handler dereferences a nil `event.SubMessage`. -/
def runMessageEvent (channel : String) (fresh : Bool) (ch : Option String)
    (pl : ProcessList) (event : MessageEvent) : Option RunEffects :=
  if event.SubType = "message_replied" then
    match event.SubMessage with
    | none => none
    | some sub =>
      let target_timestamp := sub.Timestamp
      match pl target_timestamp with
      | some process =>
        some { processList := pl
               kills := [(negInt process.Pid, Signal.SIGKILL)]
               launched := [] }
      | none => some { processList := pl, kills := [], launched := [] }
  else if event.SubType = "" ∧ fresh = true then
    let text := event.Text
    match ch with
    | some name =>
      if name = channel ∧ text ≠ "quit" then
        some { processList := pl, kills := [], launched := [(event.Channel, text)] }
      else some { processList := pl, kills := [], launched := [] }
    | none => some { processList := pl, kills := [], launched := [] }
  else some { processList := pl, kills := [], launched := [] }

/-! ## Two executions on one registry -/

/-- What an execution does next: start (lines 94-105), read one more output
line (one iteration of the read loop), or finish (lines 128-137). -/
inductive Action where
  | start (text hostname : String)
  | read (line : String)
  | finish (status : Nat)
  deriving DecidableEq, Repr

/-- Where an execution stands: not started, running with its variables, or
done. -/
inductive Phase where
  | idle
  | running (st : OpState)
  | done

/-- The two executions. -/
inductive Actor where
  | A
  | B
  deriving DecidableEq, Repr

/-- Two executions of `op` and the registry they share. The `processList`
field inside a running execution's `OpState` is the registry as that execution
left it at its last step; the shared one is `processList` here. -/
structure Pair where
  processList : ProcessList
  a : Phase
  b : Phase

/-- One step of an execution on the shared registry `pl`: the step of `op` run
on the registry as it is now. An action that does not fit the phase (a read
before the start, anything after the end) does nothing. -/
def phaseStep (api : Nat → String) (proc : Process) (pl : ProcessList) :
    Phase → Action → Phase × ProcessList
  | .idle, .start text hostname =>
    let st := opStart api proc text hostname pl
    (.running st, st.processList)
  | .running st, .read line =>
    let st' := opLoopBody api proc { st with processList := pl } line
    (.running st', st'.processList)
  | .running st, .finish status =>
    let st' := opFinish status { st with processList := pl }
    (.done, st'.processList)
  | ph, _ => (ph, pl)

/-- One step of the pair: the named execution takes its step under the lock. -/
def pairStep (apiA apiB : Nat → String) (procA procB : Process) (s : Pair) :
    Actor × Action → Pair
  | (.A, act) =>
    let r := phaseStep apiA procA s.processList s.a act
    { s with a := r.1, processList := r.2 }
  | (.B, act) =>
    let r := phaseStep apiB procB s.processList s.b act
    { s with b := r.1, processList := r.2 }

/-- The pair after a schedule (an interleaving of the two executions' steps),
from both idle on the registry `pl`. -/
def runPair (apiA apiB : Nat → String) (procA procB : Process) (pl : ProcessList)
    (schedule : List (Actor × Action)) : Pair :=
  schedule.foldl (pairStep apiA apiB procA procB) { processList := pl, a := .idle, b := .idle }

/-! ## Auxiliary definitions -/

/-- The bytes of a block's lines, each counted with one separator. -/
def blockBytes (lines : List String) : Nat :=
  (lines.map fun l => goLen l + 1).sum

/-- A string of `n` copies of the character `c`. -/
def repeatChar (n : Nat) (c : Char) : String := String.mk (List.replicate n c)

/-- A chat collaborator that returns the ids `"t0"`, `"t1"`, ... in turn. -/
def apiFresh (k : Nat) : String := "t" ++ toString k

/-- The state after the initial post of the command `x` on host `h` by process
1, with the registry empty before. -/
def startX : OpState := opStart apiFresh ⟨1⟩ "x" "h" ProcessList.empty

/-- A chat collaborator every post of which fails: the id is empty. -/
def apiFail (_ : Nat) : String := ""

/-- A chat collaborator that returns the ids `a0`, `a1`, ... in turn. -/
def apiOfA (k : Nat) : String := "a" ++ toString k

/-- A chat collaborator that returns the ids `b0`, `b1`, ... in turn. -/
def apiOfB (k : Nat) : String := "b" ++ toString k

/-- A schedule: A starts, B starts, A finishes while B is still running. -/
def scheduleABA : List (Actor × Action) :=
  [(Actor.A, Action.start "a" "h"), (Actor.B, Action.start "b" "h"),
    (Actor.A, Action.finish 0)]

/-- A schedule: A starts, then B starts; both are running. -/
def scheduleAB : List (Actor × Action) :=
  [(Actor.A, Action.start "a" "h"), (Actor.B, Action.start "b" "h")]

/-- A schedule: A starts the command `x`, B starts, then A reads a line of 3972
bytes, which does not fit its first block. -/
def scheduleRollover : List (Actor × Action) :=
  [(Actor.A, Action.start "x" "h"), (Actor.B, Action.start "b" "h"),
    (Actor.A, Action.read (repeatChar 3972 'a'))]

/-- The state of A after the schedule `scheduleRollover`, the posts of A
returning `t0`, `t1`, ... and those of B `b0`, `b1`, ... -/
def rolloverState : OpState :=
  opLoopBody apiFresh ⟨1⟩
    { startX with
      processList := (opStart apiOfB ⟨2⟩ "b" "h" startX.processList).processList }
    (repeatChar 3972 'a')

/-! ## Predicates and invariants used in the statements and proofs -/

/-- A call respects the ceiling: its content has at most 4000 bytes, or the
block it formats is a single line. -/
def CallWithinCeiling (c : ApiCall) : Prop :=
  goLen c.content ≤ maxMessageLen ∨ c.block.length = 1

/-- The invariant of the read loop behind the ceiling: every call made so far
respects it, and so does the current block. -/
def CeilingInvariant (st : OpState) : Prop :=
  (∀ c ∈ st.calls, CallWithinCeiling c) ∧
    (goLen (contentFromLines st.lines) ≤ maxMessageLen ∨ st.lines.length = 1)

/-- The invariant of the read loop behind the round trip: the reports are some
sealed blocks followed by the current block, and together they hold the header
line and the lines made from the output read so far, in order. -/
def ReportInvariant (proc : Process) (text hostname : String) (seen : List String)
    (st : OpState) : Prop :=
  ∃ blocks : List (List String),
    reportBlocks st.calls = blocks ++ [st.lines] ∧
      blocks.flatten ++ st.lines =
        headerLine text hostname :: seen.map (outputLine proc.Pid)

/-- The invariant of the read loop behind the addressing of updates: the
current id is the one the last post returned, and every update so far went to
the report posted last before it. -/
def AddressInvariant (api : Nat → String) (st : OpState) : Prop :=
  st.usedTimestamps.length = (st.calls.filter ApiCall.isPost).length ∧
    0 < (st.calls.filter ApiCall.isPost).length ∧
    st.timestamp = api ((st.calls.filter ApiCall.isPost).length - 1) ∧
    updatesAddressLatest api 0 st.calls = true

/-- The number of posts among the calls. -/
def postCount (calls : List ApiCall) : Nat := (calls.filter ApiCall.isPost).length

/-- The invariant of the read loop on the registry: the used ids are the ids
the posts made so far returned, in order, the current id is the last of them,
and each of them is registered with the process of the execution. -/
def RegistryInvariant (api : Nat → String) (proc : Process) (st : OpState) : Prop :=
  st.usedTimestamps = (List.range (postCount st.calls)).map api ∧
    st.usedTimestamps.getLast? = some st.timestamp ∧
    ∀ t ∈ st.usedTimestamps, st.processList t = some proc

/-- The invariant of the read loop behind the report count, for output lines
of at least 20 characters: a line of the block weighs at least 24 bytes with
its separator, the header line at least 15; a block has at most 166 lines; and
the lines read so far fit in that many lines per report. -/
def CountInvariant (seen : List String) (st : OpState) : Prop :=
  (∀ l ∈ seen, 20 ≤ l.length) →
    24 * st.lines.length ≤ blockBytes st.lines + 9 ∧
      st.lines.length ≤ 166 ∧
      seen.length + 1 + 166 ≤ 166 * st.usedTimestamps.length + st.lines.length

/-- The ids an execution uses were returned by its own posts. -/
def UsesOwnIds (api : Nat → String) : Phase → Prop
  | .running st => ∀ t ∈ st.usedTimestamps, ∃ k, t = api k
  | _ => True

/-- The ids a running execution uses are registered with its process. -/
def IdsRegistered (proc : Process) (pl : ProcessList) : Phase → Prop
  | .running st => ∀ t ∈ st.usedTimestamps, pl t = some proc
  | _ => True

/-- The invariant of two executions whose posts return different ids: each
uses only its own ids, and the ids of B are registered with the process of B
while B runs. -/
def PairInvariant (apiA apiB : Nat → String) (procB : Process) (s : Pair) : Prop :=
  UsesOwnIds apiA s.a ∧ UsesOwnIds apiB s.b ∧ IdsRegistered procB s.processList s.b

/-- The invariant of the read loop on the registry, for a running execution
and the registry `pl` it shares. -/
def PhaseRegistered (api : Nat → String) (proc : Process) (pl : ProcessList) :
    Phase → Prop
  | .running st => RegistryInvariant api proc { st with processList := pl }
  | _ => True

/-- The invariant of two executions whose posts return different ids, seen
from A: the registry invariant of A holds on the shared registry, and B uses
only its own ids. -/
def PairInvariantOwn (apiA apiB : Nat → String) (procA : Process) (s : Pair) : Prop :=
  PhaseRegistered apiA procA s.processList s.a ∧ UsesOwnIds apiB s.b

/-! ## Lengths of the formatted strings -/

theorem goLen_append (a b : String) : goLen (a ++ b) = goLen a + goLen b := by
  show String.utf8ByteSize (a ++ b) = String.utf8ByteSize a + String.utf8ByteSize b
  cases a with
  | mk as =>
    cases b with
    | mk bs =>
      show String.utf8Len (as ++ bs) = String.utf8Len as + String.utf8Len bs
      exact String.utf8Len_append as bs

theorem length_le_utf8Len (cs : List Char) : cs.length ≤ String.utf8Len cs := by
  induction cs with
  | nil => simp
  | cons c cs ih =>
    have := c.utf8Size_pos
    simp only [List.length_cons, String.utf8Len_cons]
    omega

/-- A string has at most as many characters as bytes. -/
theorem length_le_goLen (s : String) : s.length ≤ goLen s := by
  cases s with
  | mk cs => exact length_le_utf8Len cs

theorem blockBytes_append (xs ys : List String) :
    blockBytes (xs ++ ys) = blockBytes xs + blockBytes ys := by
  simp [blockBytes]

theorem goLen_stringsJoin (a : String) (rest : List String) :
    goLen (stringsJoin (a :: rest) "\n") + 1 = blockBytes (a :: rest) := by
  induction rest generalizing a with
  | nil => simp [stringsJoin, blockBytes]
  | cons b rest ih =>
    have h1 : goLen "\n" = 1 := by decide
    have := ih b
    simp only [stringsJoin, goLen_append, h1]
    simp only [blockBytes, List.map_cons, List.sum_cons] at this ⊢
    omega

/-- The length of a formatted block of at least one line: the two fences (four
bytes each), the lines, and one separator between consecutive lines. -/
theorem goLen_contentFromLines (a : String) (rest : List String) :
    goLen (contentFromLines (a :: rest)) = 7 + blockBytes (a :: rest) := by
  have h1 : goLen "```\n" = 4 := by decide
  have h2 : goLen "\n```" = 4 := by decide
  have := goLen_stringsJoin a rest
  simp only [contentFromLines, goLen_append, h1, h2]
  omega

/-- The slice `lines[0 : len(lines)-1]` of line 115 is the block before the
append of line 111. -/
theorem take_append_singleton (xs : List String) (x : String) :
    (xs ++ [x]).take ((xs ++ [x]).length - 1) = xs := by
  simp

theorem goLen_repeatChar (n : Nat) (c : Char) : goLen (repeatChar n c) = n * c.utf8Size := by
  show String.utf8Len (List.replicate n c) = n * c.utf8Size
  induction n with
  | zero => simp
  | succ n ih => simp [List.replicate_succ, ih, Nat.succ_mul]

theorem length_repeatChar (n : Nat) (c : Char) : (repeatChar n c).length = n := by
  simp [repeatChar, String.length]

theorem goLen_outputLine (pid : Int) (line : String) :
    goLen (outputLine pid line) = 3 + goLen (toString pid) + goLen line := by
  have h1 : goLen "[" = 1 := by decide
  have h2 : goLen "] " = 2 := by decide
  simp only [outputLine, goLen_append, h1, h2]
  omega

theorem goLen_headerLine (text hostname : String) :
    goLen (headerLine text hostname) = 14 + goLen text + goLen hostname := by
  have h1 : goLen "execute \"" = 9 := by decide
  have h2 : goLen "\" on " = 5 := by decide
  simp only [headerLine, goLen_append, h1, h2]
  omega

/-! ## One iteration of the read loop -/

/-- C4. One iteration of the read loop, for the current block `st.lines` with
report id `st.timestamp` and the new line `msg = [<pid>] <line>`. If the
formatted length of `lines ++ [msg]` is at most 4000 (exactly 4000 included),
the iteration makes exactly one call, an update of the current report with the
content `format (lines ++ [msg])`, creates no post, and the block becomes
`lines ++ [msg]` under the same id, the registry untouched. Otherwise it makes
exactly two calls, first an update of the current report with `format lines`,
then a post with content `format [msg]`, and the block becomes `[msg]` under the
id that post returns, which is added to the used ids and registered. -/
theorem opLoopBody_iteration (api : Nat → String) (proc : Process) (st : OpState)
    (line : String) :
    (goLen (contentFromLines (st.lines ++ [outputLine proc.Pid line])) ≤ 4000 →
      (opLoopBody api proc st line).calls =
          st.calls ++ [ApiCall.UpdateMessage st.timestamp
            (st.lines ++ [outputLine proc.Pid line])] ∧
        ((opLoopBody api proc st line).calls.drop st.calls.length).map ApiCall.content =
          [contentFromLines (st.lines ++ [outputLine proc.Pid line])] ∧
        (opLoopBody api proc st line).lines = st.lines ++ [outputLine proc.Pid line] ∧
        (opLoopBody api proc st line).timestamp = st.timestamp ∧
        (opLoopBody api proc st line).usedTimestamps = st.usedTimestamps ∧
        (opLoopBody api proc st line).processList = st.processList) ∧
    (4000 < goLen (contentFromLines (st.lines ++ [outputLine proc.Pid line])) →
      (opLoopBody api proc st line).calls =
          st.calls ++ [ApiCall.UpdateMessage st.timestamp st.lines,
            ApiCall.PostMessage [outputLine proc.Pid line]] ∧
        ((opLoopBody api proc st line).calls.drop st.calls.length).map ApiCall.content =
          [contentFromLines st.lines, contentFromLines [outputLine proc.Pid line]] ∧
        (opLoopBody api proc st line).lines = [outputLine proc.Pid line] ∧
        (opLoopBody api proc st line).timestamp = api st.usedTimestamps.length ∧
        (opLoopBody api proc st line).usedTimestamps =
          st.usedTimestamps ++ [api st.usedTimestamps.length] ∧
        (opLoopBody api proc st line).processList =
          st.processList.set (api st.usedTimestamps.length) proc) := by
  constructor
  · intro h
    have hn : ¬ goLen (contentFromLines (st.lines ++ [outputLine proc.Pid line])) >
        maxMessageLen := by
      simp only [maxMessageLen]; omega
    simp [opLoopBody, hn, ApiCall.content, ApiCall.block]
  · intro h
    have hp : goLen (contentFromLines (st.lines ++ [outputLine proc.Pid line])) >
        maxMessageLen := by
      simp only [maxMessageLen]; omega
    simp [opLoopBody, hp, ApiCall.content, ApiCall.block]

theorem goLen_startX_append_char (n : Nat) (c : Char) :
    goLen (contentFromLines (startX.lines ++ [outputLine 1 (repeatChar n c)])) =
      29 + n * c.utf8Size := by
  have h1 : goLen "x" = 1 := by decide
  have h2 : goLen "h" = 1 := by decide
  have h3 : goLen (toString (1 : Int)) = 1 := by decide
  simp only [startX, opStart, List.nil_append, List.singleton_append,
    goLen_contentFromLines, blockBytes, List.map_cons, List.map_nil, List.sum_cons,
    List.sum_nil, goLen_outputLine, goLen_headerLine, goLen_repeatChar, h1, h2, h3]
  omega

theorem goLen_startX_append (n : Nat) :
    goLen (contentFromLines (startX.lines ++ [outputLine 1 (repeatChar n 'a')])) =
      29 + n := by
  have h4 : Char.utf8Size 'a' = 1 := by decide
  rw [goLen_startX_append_char, h4]
  omega

/-- C4 at the boundary: a block whose formatted length with the new line is
exactly 4000 is updated in place; one byte more and it rolls over. -/
theorem opLoopBody_iteration_witness :
    (goLen (contentFromLines (startX.lines ++ [outputLine 1 (repeatChar 3971 'a')])) = 4000 ∧
      (opLoopBody apiFresh ⟨1⟩ startX (repeatChar 3971 'a')).calls =
        startX.calls ++ [ApiCall.UpdateMessage startX.timestamp
          (startX.lines ++ [outputLine 1 (repeatChar 3971 'a')])]) ∧
    (goLen (contentFromLines (startX.lines ++ [outputLine 1 (repeatChar 3972 'a')])) = 4001 ∧
      (opLoopBody apiFresh ⟨1⟩ startX (repeatChar 3972 'a')).calls =
        startX.calls ++ [ApiCall.UpdateMessage startX.timestamp startX.lines,
          ApiCall.PostMessage [outputLine 1 (repeatChar 3972 'a')]]) :=
  ⟨⟨goLen_startX_append 3971,
    ((opLoopBody_iteration apiFresh ⟨1⟩ startX (repeatChar 3971 'a')).1
      (by rw [goLen_startX_append])).1⟩,
   ⟨goLen_startX_append 3972,
    ((opLoopBody_iteration apiFresh ⟨1⟩ startX (repeatChar 3972 'a')).2
      (by rw [goLen_startX_append]; decide)).1⟩⟩

/-! ## Induction over the read loop -/

/-- A property of the state that the first state has and every iteration keeps
holds after the loop. -/
theorem opLoop_invariant (api : Nat → String) (proc : Process) (P : OpState → Prop)
    (hstep : ∀ st line, P st → P (opLoopBody api proc st line))
    (st : OpState) (outs : List String) (h0 : P st) : P (opLoop api proc st outs) := by
  induction outs generalizing st with
  | nil => exact h0
  | cons line rest ih => exact ih (opLoopBody api proc st line) (hstep st line h0)

/-- The same for a property that also speaks of the lines read so far. -/
theorem opLoop_invariant_read (api : Nat → String) (proc : Process)
    (Q : List String → OpState → Prop)
    (hstep : ∀ seen st line, Q seen st → Q (seen ++ [line]) (opLoopBody api proc st line))
    (seen : List String) (st : OpState) (outs : List String) (h0 : Q seen st) :
    Q (seen ++ outs) (opLoop api proc st outs) := by
  induction outs generalizing st seen with
  | nil => simpa [opLoop] using h0
  | cons line rest ih =>
    have := ih (seen ++ [line]) (opLoopBody api proc st line) (hstep seen st line h0)
    simpa [opLoop] using this

theorem opLoop_singleton (api : Nat → String) (proc : Process) (st : OpState)
    (line : String) : opLoop api proc st [line] = opLoopBody api proc st line := rfl

/-- The two outcomes of an iteration, as equations on the state. -/
theorem opLoopBody_cases (api : Nat → String) (proc : Process) (st : OpState)
    (line : String) :
    (goLen (contentFromLines (st.lines ++ [outputLine proc.Pid line])) ≤ maxMessageLen ∧
      opLoopBody api proc st line =
        { st with
          lines := st.lines ++ [outputLine proc.Pid line]
          calls := st.calls ++ [ApiCall.UpdateMessage st.timestamp
            (st.lines ++ [outputLine proc.Pid line])] }) ∨
    (maxMessageLen < goLen (contentFromLines (st.lines ++ [outputLine proc.Pid line])) ∧
      opLoopBody api proc st line =
        { lines := [outputLine proc.Pid line]
          timestamp := api st.usedTimestamps.length
          usedTimestamps := st.usedTimestamps ++ [api st.usedTimestamps.length]
          processList := st.processList.set (api st.usedTimestamps.length) proc
          calls := st.calls ++ [ApiCall.UpdateMessage st.timestamp st.lines,
            ApiCall.PostMessage [outputLine proc.Pid line]] }) := by
  by_cases h : goLen (contentFromLines (st.lines ++ [outputLine proc.Pid line])) >
      maxMessageLen
  · right
    exact ⟨h, by simp [opLoopBody, h]⟩
  · left
    exact ⟨by omega, by simp [opLoopBody, h]⟩

/-! ## The size ceiling in the read loop -/

theorem ceilingInvariant_opStart (api : Nat → String) (proc : Process)
    (text hostname : String) (pl : ProcessList) :
    CeilingInvariant (opStart api proc text hostname pl) := by
  constructor
  · intro c hc
    simp only [opStart, List.nil_append, List.mem_singleton] at hc
    subst hc
    right
    rfl
  · right
    rfl

theorem ceilingInvariant_opLoopBody (api : Nat → String) (proc : Process)
    (st : OpState) (line : String) (h : CeilingInvariant st) :
    CeilingInvariant (opLoopBody api proc st line) := by
  obtain ⟨hcalls, hblock⟩ := h
  rcases opLoopBody_cases api proc st line with ⟨hle, heq⟩ | ⟨_, heq⟩
  · rw [heq]
    refine ⟨?_, Or.inl hle⟩
    intro c hc
    simp only [List.mem_append, List.mem_singleton] at hc
    rcases hc with hc | hc
    · exact hcalls c hc
    · subst hc
      exact Or.inl hle
  · rw [heq]
    refine ⟨?_, Or.inr rfl⟩
    intro c hc
    simp only [List.mem_append, List.mem_cons, List.mem_singleton, List.not_mem_nil,
      or_false] at hc
    rcases hc with hc | hc | hc
    · exact hcalls c hc
    · subst hc
      exact hblock
    · subst hc
      exact Or.inr rfl

/-- C1. For every command text, hostname, pid and output lines, every call made
from the initial post to the end of the read loop (each in-place update, each
sealing update, each post) sends a content of at most 4000 bytes, hence of at
most 4000 characters, unless the block it formats holds exactly one line. -/
theorem opLoop_calls_within_ceiling (api : Nat → String) (proc : Process)
    (text hostname : String) (pl : ProcessList) (outs : List String) (c : ApiCall)
    (hc : c ∈ (opLoop api proc (opStart api proc text hostname pl) outs).calls) :
    (goLen c.content ≤ 4000 ∧ c.content.length ≤ 4000) ∨ c.block.length = 1 := by
  have hinv := opLoop_invariant api proc CeilingInvariant
    (ceilingInvariant_opLoopBody api proc) _ outs
    (ceilingInvariant_opStart api proc text hostname pl)
  rcases hinv.1 c hc with h | h
  · left
    have := length_le_goLen c.content
    simp only [maxMessageLen] at h
    exact ⟨h, by omega⟩
  · exact Or.inr h

/-- C1 on the command `x` whose subprocess prints `hi`: the in-place update of
the two-line block is one of the calls, and its content is within the ceiling. -/
theorem opLoop_calls_within_ceiling_witness :
    ApiCall.UpdateMessage "t0" [headerLine "x" "h", outputLine 1 "hi"] ∈
        (opLoop apiFresh ⟨1⟩ (opStart apiFresh ⟨1⟩ "x" "h" ProcessList.empty) ["hi"]).calls ∧
      ((goLen (ApiCall.UpdateMessage "t0"
            [headerLine "x" "h", outputLine 1 "hi"]).content ≤ 4000 ∧
          (ApiCall.UpdateMessage "t0"
            [headerLine "x" "h", outputLine 1 "hi"]).content.length ≤ 4000) ∨
        (ApiCall.UpdateMessage "t0" [headerLine "x" "h", outputLine 1 "hi"]).block.length = 1) :=
  ⟨by decide,
    opLoop_calls_within_ceiling apiFresh ⟨1⟩ "x" "h" ProcessList.empty ["hi"] _ (by decide)⟩

/-! ## The lines of the reports -/

theorem reportBlocks_append (calls new : List ApiCall) :
    reportBlocks (calls ++ new) = new.foldl recordCall (reportBlocks calls) := by
  simp [reportBlocks, List.foldl_append]

theorem recordCall_update (blocks : List (List String)) (cur : List String)
    (ts : String) (lines : List String) :
    recordCall (blocks ++ [cur]) (ApiCall.UpdateMessage ts lines) = blocks ++ [lines] := by
  cases h : blocks ++ [cur] with
  | nil => simp at h
  | cons x xs =>
    have : (x :: xs).dropLast = blocks := by rw [← h]; simp
    simp [recordCall, this]

theorem recordCall_length (reports : List (List String)) (c : ApiCall) :
    (recordCall reports c).length = reports.length + (if c.isPost then 1 else 0) := by
  cases c with
  | PostMessage lines => simp [recordCall, ApiCall.isPost]
  | UpdateMessage ts lines =>
    cases reports with
    | nil => simp [recordCall, ApiCall.isPost]
    | cons x xs => simp [recordCall, ApiCall.isPost]

theorem foldl_recordCall_length (calls : List ApiCall) (reports : List (List String)) :
    (calls.foldl recordCall reports).length =
      reports.length + (calls.filter ApiCall.isPost).length := by
  induction calls generalizing reports with
  | nil => simp
  | cons c rest ih =>
    rw [List.foldl_cons, ih, recordCall_length]
    cases h : c.isPost <;> simp [List.filter_cons, h]
    omega

/-- There are as many reports as posts. -/
theorem reportBlocks_length (calls : List ApiCall) :
    (reportBlocks calls).length = (calls.filter ApiCall.isPost).length := by
  simp [reportBlocks, foldl_recordCall_length]

theorem reportInvariant_opStart (api : Nat → String) (proc : Process)
    (text hostname : String) (pl : ProcessList) :
    ReportInvariant proc text hostname [] (opStart api proc text hostname pl) :=
  ⟨[], by simp [opStart, reportBlocks, recordCall], by simp [opStart]⟩

theorem reportInvariant_opLoopBody (api : Nat → String) (proc : Process)
    (text hostname : String) (seen : List String) (st : OpState) (line : String)
    (h : ReportInvariant proc text hostname seen st) :
    ReportInvariant proc text hostname (seen ++ [line]) (opLoopBody api proc st line) := by
  obtain ⟨blocks, hb, hl⟩ := h
  rcases opLoopBody_cases api proc st line with ⟨_, heq⟩ | ⟨_, heq⟩
  · rw [heq]
    refine ⟨blocks, ?_, ?_⟩
    · simp only [reportBlocks_append, List.foldl_cons, List.foldl_nil, hb,
        recordCall_update]
    · simp only [← List.append_assoc, hl]
      simp
  · rw [heq]
    refine ⟨blocks ++ [st.lines], ?_, ?_⟩
    · simp only [reportBlocks_append, List.foldl_cons, List.foldl_nil, hb,
        recordCall_update]
      simp [recordCall]
    · simp only [List.flatten_append, List.flatten_cons, List.flatten_nil,
        List.append_nil, hl]
      simp

theorem updatesAddressLatest_append (api : Nat → String) (n : Nat)
    (xs ys : List ApiCall) :
    updatesAddressLatest api n (xs ++ ys) =
      (updatesAddressLatest api n xs &&
        updatesAddressLatest api (n + (xs.filter ApiCall.isPost).length) ys) := by
  induction xs generalizing n with
  | nil => simp [updatesAddressLatest]
  | cons c rest ih =>
    cases c with
    | PostMessage lines =>
      simp only [List.cons_append, updatesAddressLatest, ih, List.filter_cons,
        ApiCall.isPost, if_true, List.length_cons]
      show updatesAddressLatest api (n + 1) (rest ++ ys) = _
      rw [ih, show n + ((List.filter ApiCall.isPost rest).length + 1) =
        n + 1 + (List.filter ApiCall.isPost rest).length by omega]
    | UpdateMessage ts lines =>
      simp [updatesAddressLatest, ih, List.filter_cons, ApiCall.isPost, Bool.and_assoc]

theorem addressInvariant_opStart (api : Nat → String) (proc : Process)
    (text hostname : String) (pl : ProcessList) :
    AddressInvariant api (opStart api proc text hostname pl) := by
  simp [AddressInvariant, opStart, ApiCall.isPost, updatesAddressLatest]

theorem addressInvariant_update (api : Nat → String) (st : OpState)
    (lines : List String) (h : AddressInvariant api st) :
    updatesAddressLatest api 0 (st.calls ++ [ApiCall.UpdateMessage st.timestamp lines]) =
      true := by
  obtain ⟨_, hpos, hts, hup⟩ := h
  rw [updatesAddressLatest_append, hup]
  simp [updatesAddressLatest, hpos, hts]

theorem addressInvariant_opLoopBody (api : Nat → String) (proc : Process)
    (st : OpState) (line : String) (h : AddressInvariant api st) :
    AddressInvariant api (opLoopBody api proc st line) := by
  have hupd := addressInvariant_update api st
  obtain ⟨hlen, hpos, hts, hup⟩ := h
  rcases opLoopBody_cases api proc st line with ⟨_, heq⟩ | ⟨_, heq⟩
  · rw [heq]
    refine ⟨?_, ?_, ?_, hupd _ ⟨hlen, hpos, hts, hup⟩⟩
    · simpa [ApiCall.isPost] using hlen
    · simpa [ApiCall.isPost] using hpos
    · simpa [ApiCall.isPost] using hts
  · rw [heq]
    refine ⟨?_, ?_, ?_, ?_⟩
    · simp [ApiCall.isPost, hlen]
    · simp [ApiCall.isPost]
    · simp [ApiCall.isPost, hlen]
    · have := hupd st.lines ⟨hlen, hpos, hts, hup⟩
      rw [show st.calls ++ [ApiCall.UpdateMessage st.timestamp st.lines,
          ApiCall.PostMessage [outputLine proc.Pid line]] =
        (st.calls ++ [ApiCall.UpdateMessage st.timestamp st.lines]) ++
          [ApiCall.PostMessage [outputLine proc.Pid line]] by simp]
      rw [updatesAddressLatest_append, this]
      simp [updatesAddressLatest]

/-- The round trip over the tokens of the scanner: the line lists of the
reports, concatenated in creation order, are the header line, then the line
made from each token in order, then the termination line; and every update
addresses the report posted last before it. -/
theorem op_tokens_round_trip (api : Nat → String) (proc : Process)
    (text hostname : String) (outs : List String) (status : Nat) (pl : ProcessList) :
    (reportBlocks (op api proc text hostname outs status pl).calls).flatten =
        headerLine text hostname :: (outs.map (outputLine proc.Pid) ++
          [terminationLine status]) ∧
      updatesAddressLatest api 0 (op api proc text hostname outs status pl).calls = true := by
  refine ⟨?_, addressInvariant_update api _ _
    (opLoop_invariant api proc (AddressInvariant api)
      (addressInvariant_opLoopBody api proc) _ outs
      (addressInvariant_opStart api proc text hostname pl))⟩
  have hinv := opLoop_invariant_read api proc (ReportInvariant proc text hostname)
    (reportInvariant_opLoopBody api proc text hostname) [] _ outs
    (reportInvariant_opStart api proc text hostname pl)
  obtain ⟨blocks, hb, hl⟩ := hinv
  simp only [List.nil_append] at hl
  simp only [op, opFinish, reportBlocks_append, List.foldl_cons, List.foldl_nil, hb,
    recordCall_update, List.flatten_append, List.flatten_cons, List.flatten_nil,
    List.append_nil]
  rw [← List.append_assoc, hl]
  simp

theorem scannerTokens_of_short (output : List String)
    (hshort : ∀ l ∈ output, goLen l < 65536) :
    scannerTokens output = output.map dropCR := by
  induction output with
  | nil => rfl
  | cons l rest ih =>
    have hl : goLen l < maxScanTokenSize := hshort l (List.mem_cons_self l rest)
    have hrest := ih (fun x hx => hshort x (List.mem_cons_of_mem l hx))
    simp only [scannerTokens, hl, if_true, hrest, List.map_cons]

theorem scannerTokens_long_line :
    scannerTokens ["a", repeatChar 65536 'b', "c"] = ["a"] := by
  have h1 : goLen "a" < maxScanTokenSize := by decide
  have h2 : ¬ goLen (repeatChar 65536 'b') < maxScanTokenSize := by
    have hb : Char.utf8Size 'b' = 1 := by decide
    rw [goLen_repeatChar, hb]
    decide
  have h3 : dropCR "a" = "a" := by decide
  simp only [scannerTokens, h1, h2, if_true, if_false, h3]

/-- C2 as stated fails. The command `x` on host `h`, pid 1, exit status 0.
When the subprocess writes the lines `a`, then 65536 letters `b`, then `c`, the
scanner stops at the second line, and the reports hold the header line,
`[1] a` and the termination line only: the lines of the second and third output
lines are missing. When it writes the line `a` followed by a carriage return,
the report holds `[1] a`, without the carriage return. -/
theorem opRun_round_trip_counterexample :
    (reportBlocks (opRun apiFresh ⟨1⟩ "x" "h" ["a", repeatChar 65536 'b', "c"] (some 0)
        ProcessList.empty).calls).flatten =
        ["execute \"x\" on h", "[1] a", "terminated with 0"] ∧
      (reportBlocks (opRun apiFresh ⟨1⟩ "x" "h" ["a\r"] (some 0)
        ProcessList.empty).calls).flatten =
        ["execute \"x\" on h", "[1] a", "terminated with 0"] := by
  constructor
  · have h : opRun apiFresh ⟨1⟩ "x" "h" ["a", repeatChar 65536 'b', "c"] (some 0)
        ProcessList.empty = op apiFresh ⟨1⟩ "x" "h" ["a"] 0 ProcessList.empty := by
      simp only [opRun, scannerTokens_long_line]
    rw [h]
    decide
  · decide

/-- C2, amended. For every command text, hostname, pid, exit status and every
sequence of output lines each shorter than 65536 bytes, the line lists of the
reports of one execution, concatenated in creation order (each sealed block,
then the last block as the final update sends it), are exactly the header line
`execute "<text>" on <hostname>`, then `[<pid>] <line>` for each output line in
order, the line taken without its final carriage return if it has one, then the
line `terminated with <status>`: nothing missing, nothing twice. Every update
of the execution addresses the report posted last before it, so the last lines
sent to a report are those of its block. -/
theorem opRun_reports_round_trip (api : Nat → String) (proc : Process)
    (text hostname : String) (output : List String) (status : Nat) (pl : ProcessList)
    (hshort : ∀ l ∈ output, goLen l < 65536) :
    (reportBlocks (opRun api proc text hostname output (some status) pl).calls).flatten =
        ("execute \"" ++ text ++ "\" on " ++ hostname) ::
          (output.map (fun l => "[" ++ toString proc.Pid ++ "] " ++
              (if l.data.getLast? = some '\r' then String.mk l.data.dropLast else l)) ++
            ["terminated with " ++ toString status]) ∧
      updatesAddressLatest api 0
        (opRun api proc text hostname output (some status) pl).calls = true := by
  have h := op_tokens_round_trip api proc text hostname (output.map dropCR) status pl
  have htok := scannerTokens_of_short output hshort
  simp only [opRun, htok]
  refine ⟨?_, h.2⟩
  rw [h.1, List.map_map]
  rfl

/-- C2, amended, on the command `x` whose subprocess writes `hi` followed by a
carriage return, then `ho`. -/
theorem opRun_reports_round_trip_witness :
    (∀ l ∈ ["hi\r", "ho"], goLen l < 65536) ∧
      (reportBlocks (opRun apiFresh ⟨1⟩ "x" "h" ["hi\r", "ho"] (some 0)
        ProcessList.empty).calls).flatten =
        ["execute \"x\" on h", "[1] hi", "[1] ho", "terminated with 0"] :=
  ⟨by decide,
    (opRun_reports_round_trip apiFresh ⟨1⟩ "x" "h" ["hi\r", "ho"] 0 ProcessList.empty
      (by decide)).1.trans (by decide)⟩

/-! ## The registry during and after an execution -/

theorem postCount_append (xs ys : List ApiCall) :
    postCount (xs ++ ys) = postCount xs + postCount ys := by
  simp [postCount]

theorem registryInvariant_length (api : Nat → String) (proc : Process) (st : OpState)
    (h : RegistryInvariant api proc st) : st.usedTimestamps.length = postCount st.calls := by
  have := congrArg List.length h.1
  simpa using this

theorem registryInvariant_opStart (api : Nat → String) (proc : Process)
    (text hostname : String) (pl : ProcessList) :
    RegistryInvariant api proc (opStart api proc text hostname pl) := by
  refine ⟨by simp [opStart, postCount, ApiCall.isPost, List.range_succ],
    by simp [opStart], ?_⟩
  intro t ht
  simp only [opStart, List.mem_singleton] at ht
  simp [opStart, ProcessList.set, ht]

theorem registryInvariant_opLoopBody (api : Nat → String) (proc : Process)
    (st : OpState) (line : String) (h : RegistryInvariant api proc st) :
    RegistryInvariant api proc (opLoopBody api proc st line) := by
  have hlen := registryInvariant_length api proc st h
  obtain ⟨hused, hlast, hreg⟩ := h
  rcases opLoopBody_cases api proc st line with ⟨_, heq⟩ | ⟨_, heq⟩
  · rw [heq]
    refine ⟨?_, hlast, hreg⟩
    simpa [postCount_append, postCount, ApiCall.isPost] using hused
  · rw [heq]
    refine ⟨?_, by simp, ?_⟩
    · simp only [postCount_append]
      have h2 : postCount [ApiCall.UpdateMessage st.timestamp st.lines,
          ApiCall.PostMessage [outputLine proc.Pid line]] = 1 := by
        simp [postCount, ApiCall.isPost]
      rw [h2, List.range_succ, List.map_append, ← hused, hlen]
      simp
    · intro t ht
      simp only [List.mem_append, List.mem_singleton] at ht
      by_cases hk : t = api st.usedTimestamps.length
      · simp [ProcessList.set, hk]
      · rcases ht with ht | ht
        · simp [ProcessList.set, hk, hreg t ht]
        · exact absurd ht hk

/-- After the deletions of lines 134-136 a key is absent if it was among the
deleted ones and is as before otherwise. -/
theorem foldl_delete_apply (keys : List String) (pl : ProcessList) (t : String) :
    (keys.foldl ProcessList.delete pl) t = if t ∈ keys then none else pl t := by
  induction keys generalizing pl with
  | nil => simp
  | cons k rest ih =>
    rw [List.foldl_cons, ih]
    by_cases h1 : t ∈ rest
    · simp [h1]
    · by_cases h2 : t = k
      · simp [h1, h2, ProcessList.delete]
      · simp [h1, h2, ProcessList.delete]

/-- C6. After the finalizing step of `op`, the ids ever created by the
execution (the elements of `usedTimestamps`, which are the ids returned by its
posts, the initial one and one per rollover) are all absent from
`processList`. -/
theorem op_ids_unregistered (api : Nat → String) (proc : Process)
    (text hostname : String) (outs : List String) (status : Nat) (pl : ProcessList) :
    (op api proc text hostname outs status pl).usedTimestamps =
        (List.range (postCount (op api proc text hostname outs status pl).calls)).map api ∧
      ∀ t ∈ (op api proc text hostname outs status pl).usedTimestamps,
        (op api proc text hostname outs status pl).processList t = none := by
  have hinv := opLoop_invariant api proc (RegistryInvariant api proc)
    (registryInvariant_opLoopBody api proc) _ outs
    (registryInvariant_opStart api proc text hostname pl)
  constructor
  · have := hinv.1
    simpa [op, opFinish, postCount_append, postCount, ApiCall.isPost] using this
  · intro t ht
    simp only [op, opFinish] at ht ⊢
    rw [foldl_delete_apply]
    simp [ht]

/-- C6 on the command `x` whose subprocess prints `hi`: the id `t0` is absent
after the end. -/
theorem op_ids_unregistered_witness :
    "t0" ∈ (op apiFresh ⟨1⟩ "x" "h" ["hi"] 0 ProcessList.empty).usedTimestamps ∧
      (op apiFresh ⟨1⟩ "x" "h" ["hi"] 0 ProcessList.empty).processList "t0" = none :=
  ⟨by decide,
    (op_ids_unregistered apiFresh ⟨1⟩ "x" "h" ["hi"] 0 ProcessList.empty).2 "t0" (by decide)⟩

/-! ## Cancellation -/

theorem negInt_eq_neg (x : Int) (h1 : -2 ^ 63 < x) (h2 : x < 2 ^ 63) : negInt x = -x := by
  unfold negInt
  omega

/-- C7. For every registry `pl` and every reply event (subtype
`message_replied`) with target id `t`, the handler of `run` raises no error,
leaves `processList` as it was and launches no command; it sends a signal if
and only if `t` is present in `processList`; when `t` is present with process
`p` it sends exactly one signal, SIGKILL, to `-p.Pid` as Go computes it, which
is the negated pid for every pid a 64-bit `int` negates without overflow; when
`t` is absent it sends nothing. -/
theorem runMessageEvent_reply (channel : String) (fresh : Bool) (ch : Option String)
    (pl : ProcessList) (text chan t : String) :
    ∃ r : RunEffects,
      runMessageEvent channel fresh ch pl
          { SubType := "message_replied", Text := text, Channel := chan,
            SubMessage := some ⟨t⟩ } = some r ∧
        r.processList = pl ∧ r.launched = [] ∧
        (r.kills ≠ [] ↔ (pl t).isSome = true) ∧
        (∀ p : Process, pl t = some p →
          r.kills = [(negInt p.Pid, Signal.SIGKILL)] ∧
            (-2 ^ 63 < p.Pid → p.Pid < 2 ^ 63 → r.kills = [(-p.Pid, Signal.SIGKILL)])) ∧
        (pl t = none → r.kills = []) := by
  cases h : pl t with
  | none =>
    refine ⟨{ processList := pl, kills := [], launched := [] }, ?_, rfl, rfl, ?_, ?_, ?_⟩
    · simp [runMessageEvent, h]
    · simp
    · intro p hp
      cases hp
    · intro _
      rfl
  | some q =>
    refine ⟨{ processList := pl, kills := [(negInt q.Pid, Signal.SIGKILL)], launched := [] },
      ?_, rfl, rfl, ?_, ?_, ?_⟩
    · simp [runMessageEvent, h]
    · simp
    · intro p hp
      cases hp
      refine ⟨rfl, ?_⟩
      intro h1 h2
      rw [negInt_eq_neg q.Pid h1 h2]
    · intro hp
      cases hp

/-- C7 on a registry that holds the id `t0` with the process 42: a reply to
`t0` sends SIGKILL to -42, a reply to the unknown id `zz` sends nothing. -/
theorem runMessageEvent_reply_witness :
    (∃ r : RunEffects,
      runMessageEvent "ops" true none (ProcessList.empty.set "t0" ⟨42⟩)
          { SubType := "message_replied", Text := "", Channel := "C1",
            SubMessage := some ⟨"t0"⟩ } = some r ∧
        r.processList = ProcessList.empty.set "t0" ⟨42⟩ ∧ r.launched = [] ∧
        r.kills = [(-42, Signal.SIGKILL)]) ∧
    (∃ r : RunEffects,
      runMessageEvent "ops" true none (ProcessList.empty.set "t0" ⟨42⟩)
          { SubType := "message_replied", Text := "", Channel := "C1",
            SubMessage := some ⟨"zz"⟩ } = some r ∧
        r.processList = ProcessList.empty.set "t0" ⟨42⟩ ∧ r.launched = [] ∧
        r.kills = []) := by
  constructor
  · obtain ⟨r, hr, hpl, hl, _, hk, _⟩ :=
      runMessageEvent_reply "ops" true none (ProcessList.empty.set "t0" ⟨42⟩) "" "C1" "t0"
    exact ⟨r, hr, hpl, hl, (hk ⟨42⟩ (by decide)).2 (by decide) (by decide)⟩
  · obtain ⟨r, hr, hpl, hl, _, _, hk⟩ :=
      runMessageEvent_reply "ops" true none (ProcessList.empty.set "t0" ⟨42⟩) "" "C1" "zz"
    exact ⟨r, hr, hpl, hl, hk (by decide)⟩

/-! ## How many reports a long output needs -/

theorem goLen_contentFromLines_append (xs : List String) (x : String) :
    goLen (contentFromLines (xs ++ [x])) = 7 + blockBytes (xs ++ [x]) := by
  cases xs with
  | nil => exact goLen_contentFromLines x []
  | cons a rest => exact goLen_contentFromLines a (rest ++ [x])

theorem countInvariant_opStart (api : Nat → String) (proc : Process)
    (text hostname : String) (pl : ProcessList) :
    CountInvariant [] (opStart api proc text hostname pl) := by
  intro _
  have := goLen_headerLine text hostname
  simp only [opStart, List.nil_append, blockBytes, List.map_cons, List.map_nil,
    List.sum_cons, List.sum_nil, List.length_singleton, List.length_nil]
  omega

theorem countInvariant_opLoopBody (api : Nat → String) (proc : Process)
    (seen : List String) (st : OpState) (line : String) (h : CountInvariant seen st) :
    CountInvariant (seen ++ [line]) (opLoopBody api proc st line) := by
  intro hall
  have hseen : ∀ l ∈ seen, 20 ≤ l.length := fun l hl =>
    hall l (List.mem_append.mpr (Or.inl hl))
  have hline : 20 ≤ line.length := hall line (by simp)
  obtain ⟨hw, hlen, hcount⟩ := h hseen
  have hmsg : 23 ≤ goLen (outputLine proc.Pid line) := by
    have h1 := goLen_outputLine proc.Pid line
    have h2 := length_le_goLen line
    omega
  have hbytes : blockBytes (st.lines ++ [outputLine proc.Pid line]) =
      blockBytes st.lines + (goLen (outputLine proc.Pid line) + 1) := by
    simp [blockBytes]
  rcases opLoopBody_cases api proc st line with ⟨hle, heq⟩ | ⟨_, heq⟩
  · rw [heq]
    rw [goLen_contentFromLines_append, hbytes] at hle
    simp only [maxMessageLen] at hle
    simp only [hbytes, List.length_append, List.length_singleton]
    omega
  · rw [heq]
    simp only [blockBytes, List.map_cons, List.map_nil, List.sum_cons, List.sum_nil,
      List.length_append, List.length_singleton]
    omega

/-- C8. For every pid, command text and hostname, an execution whose subprocess
outputs 500 lines of 20 characters each makes at least 3 posts in all (the
initial one plus one per rollover), that is, creates at least 3 reports. -/
theorem op_500_lines_posts (api : Nat → String) (proc : Process)
    (text hostname : String) (outs : List String) (status : Nat) (pl : ProcessList)
    (hcount : outs.length = 500) (hwidth : ∀ l ∈ outs, l.length = 20) :
    3 ≤ postCount (op api proc text hostname outs status pl).calls ∧
      3 ≤ (reportBlocks (op api proc text hostname outs status pl).calls).length := by
  have hreg := opLoop_invariant api proc (RegistryInvariant api proc)
    (registryInvariant_opLoopBody api proc) _ outs
    (registryInvariant_opStart api proc text hostname pl)
  have hlen := registryInvariant_length api proc _ hreg
  have hinv := opLoop_invariant_read api proc CountInvariant
    (countInvariant_opLoopBody api proc) [] _ outs
    (countInvariant_opStart api proc text hostname pl)
  simp only [List.nil_append] at hinv
  obtain ⟨_, h2, h3⟩ := hinv (fun l hl => by rw [hwidth l hl])
  have hposts : 3 ≤ postCount (op api proc text hostname outs status pl).calls := by
    simp only [op, opFinish, postCount_append]
    omega
  refine ⟨hposts, ?_⟩
  rw [reportBlocks_length]
  exact hposts

/-- C8 on 500 lines of twenty `a`. -/
theorem op_500_lines_posts_witness :
    (List.replicate 500 "aaaaaaaaaaaaaaaaaaaa").length = 500 ∧
      (∀ l ∈ List.replicate 500 "aaaaaaaaaaaaaaaaaaaa", l.length = 20) ∧
      3 ≤ postCount (op apiFresh ⟨1234⟩ "x" "h"
        (List.replicate 500 "aaaaaaaaaaaaaaaaaaaa") 0 ProcessList.empty).calls :=
  have h1 : (List.replicate 500 "aaaaaaaaaaaaaaaaaaaa").length = 500 :=
    List.length_replicate 500 "aaaaaaaaaaaaaaaaaaaa"
  have h2 : ∀ l ∈ List.replicate 500 "aaaaaaaaaaaaaaaaaaaa", l.length = 20 := by
    intro l hl
    rw [List.eq_of_mem_replicate hl]
    decide
  ⟨h1, h2, (op_500_lines_posts apiFresh ⟨1234⟩ "x" "h" _ 0 ProcessList.empty h1 h2).1⟩

/-! ## The final update -/

/-- C3, the code at a failing input. The command `x` on host `h`, pid 1, prints
one line of 3971 bytes and exits with status 0. The block of the header and
that line is formatted in exactly 4000 bytes and is updated in place; the final
update then sends the same block with the termination line appended: three
lines, 4018 bytes, over the ceiling, to the same report, and no post is made. -/
theorem op_final_update_over_ceiling :
    (op apiFresh ⟨1⟩ "x" "h" [repeatChar 3971 'a'] 0 ProcessList.empty).calls =
        [ApiCall.PostMessage [headerLine "x" "h"],
          ApiCall.UpdateMessage "t0"
            [headerLine "x" "h", outputLine 1 (repeatChar 3971 'a')],
          ApiCall.UpdateMessage "t0"
            [headerLine "x" "h", outputLine 1 (repeatChar 3971 'a'), terminationLine 0]] ∧
      goLen (ApiCall.UpdateMessage "t0"
        [headerLine "x" "h", outputLine 1 (repeatChar 3971 'a')]).content = 4000 ∧
      goLen (ApiCall.UpdateMessage "t0"
        [headerLine "x" "h", outputLine 1 (repeatChar 3971 'a'),
          terminationLine 0]).content = 4018 ∧
      (ApiCall.UpdateMessage "t0"
        [headerLine "x" "h", outputLine 1 (repeatChar 3971 'a'),
          terminationLine 0]).block.length = 3 := by
  have hlen := goLen_startX_append 3971
  have hcontent : goLen (contentFromLines
      [headerLine "x" "h", outputLine 1 (repeatChar 3971 'a')]) = 4000 := hlen
  refine ⟨?_, hcontent, ?_, rfl⟩
  · have h0 : op apiFresh ⟨1⟩ "x" "h" [repeatChar 3971 'a'] 0 ProcessList.empty =
        opFinish 0 (opLoopBody apiFresh ⟨1⟩ startX (repeatChar 3971 'a')) := by
      rw [op, opLoop_singleton]
      rfl
    rcases opLoopBody_cases apiFresh ⟨1⟩ startX (repeatChar 3971 'a') with
      ⟨_, heq⟩ | ⟨hgt, _⟩
    · rw [h0, heq]
      rfl
    · rw [hlen] at hgt
      simp [maxMessageLen] at hgt
  · have h1 : goLen (terminationLine 0) = 17 := by decide
    have h2 := goLen_contentFromLines (headerLine "x" "h")
      [outputLine 1 (repeatChar 3971 'a')]
    have h3 := goLen_contentFromLines (headerLine "x" "h")
      [outputLine 1 (repeatChar 3971 'a'), terminationLine 0]
    rw [hcontent] at h2
    simp only [ApiCall.content, ApiCall.block]
    rw [h3]
    simp only [blockBytes, List.map_cons, List.map_nil, List.sum_cons, List.sum_nil,
      h1] at h2 ⊢
    omega

/-! ## The unit of the ceiling -/

/-- C10 as stated fails. The block of the header line of the command `x` and
the new line `[1] ` followed by 2000 letters `é` has 2029 characters, fewer
than 4000, but 4029 bytes: the read loop seals the current report and posts a
new one. -/
theorem opLoopBody_characters_counterexample :
    (contentFromLines (startX.lines ++ [outputLine 1 (repeatChar 2000 'é')])).length ≤ 4000 ∧
      (opLoopBody apiFresh ⟨1⟩ startX (repeatChar 2000 'é')).calls =
        startX.calls ++ [ApiCall.UpdateMessage "t0" startX.lines,
          ApiCall.PostMessage [outputLine 1 (repeatChar 2000 'é')]] ∧
      (opLoopBody apiFresh ⟨1⟩ startX (repeatChar 2000 'é')).usedTimestamps =
        ["t0", "t1"] := by
  have hlen := goLen_startX_append_char 2000 'é'
  have hc : Char.utf8Size 'é' = 2 := by decide
  rw [hc] at hlen
  refine ⟨?_, ?_⟩
  · have h1 : (toString (1 : Int)).length = 1 := by decide
    have h2 : "```\n".length = 4 := by decide
    have h3 : "\n```".length = 4 := by decide
    have h4 : (headerLine "x" "h").length = 16 := by decide
    have h5 : "[".length = 1 := by decide
    have h6 : "] ".length = 2 := by decide
    have h7 : "\n".length = 1 := by decide
    simp only [startX, opStart, List.nil_append, List.singleton_append, contentFromLines,
      stringsJoin, outputLine, String.length_append, length_repeatChar, h1, h2, h3, h4,
      h5, h6, h7]
    decide
  · rcases opLoopBody_cases apiFresh ⟨1⟩ startX (repeatChar 2000 'é') with
      ⟨hle, _⟩ | ⟨_, heq⟩
    · rw [hlen] at hle
      simp [maxMessageLen] at hle
    · rw [heq]
      exact ⟨rfl, by decide⟩

/-- C10, amended. The ceiling is measured in bytes (Go `len`): for every
current block and new message line, non-ASCII text included, if the formatted
content of the block with the new line appended has at most 4000 bytes, the
read loop makes one call, an update of the current report with that content,
and creates no new report: the current id, the used ids and the number of posts
are as before. -/
theorem opLoopBody_bytes_in_place (api : Nat → String) (proc : Process) (st : OpState)
    (line : String)
    (h : goLen (contentFromLines (st.lines ++ [outputLine proc.Pid line])) ≤ 4000) :
    (opLoopBody api proc st line).calls =
        st.calls ++ [ApiCall.UpdateMessage st.timestamp
          (st.lines ++ [outputLine proc.Pid line])] ∧
      postCount (opLoopBody api proc st line).calls = postCount st.calls ∧
      (opLoopBody api proc st line).timestamp = st.timestamp ∧
      (opLoopBody api proc st line).usedTimestamps = st.usedTimestamps := by
  rcases opLoopBody_cases api proc st line with ⟨_, heq⟩ | ⟨hgt, _⟩
  · rw [heq]
    exact ⟨rfl, by simp [postCount_append, postCount, ApiCall.isPost], rfl, rfl⟩
  · simp only [maxMessageLen] at hgt
    omega

/-- C10, amended, on a line of 1985 letters `é`: 2014 characters, 3999 bytes,
updated in place. -/
theorem opLoopBody_bytes_in_place_witness :
    goLen (contentFromLines (startX.lines ++ [outputLine 1 (repeatChar 1985 'é')])) ≤ 4000 ∧
      (opLoopBody apiFresh ⟨1⟩ startX (repeatChar 1985 'é')).calls =
        startX.calls ++ [ApiCall.UpdateMessage startX.timestamp
          (startX.lines ++ [outputLine 1 (repeatChar 1985 'é')])] :=
  have h : goLen (contentFromLines
      (startX.lines ++ [outputLine 1 (repeatChar 1985 'é')])) ≤ 4000 := by
    have hc : Char.utf8Size 'é' = 2 := by decide
    rw [goLen_startX_append_char, hc]
    decide
  ⟨h, (opLoopBody_bytes_in_place apiFresh ⟨1⟩ startX (repeatChar 1985 'é') h).1⟩

/-! ## Two executions on one registry -/

/-- C9 as stated fails. Two executions A (process 1) and B (process 2) share
an empty registry, and every post fails, so each gets the empty id. A starts, B
starts, A finishes: B is still running, the empty id is one B created, and the
registry no longer holds it. -/
theorem runPair_failed_posts_counterexample :
    ∃ st : OpState,
      (runPair apiFail apiFail ⟨1⟩ ⟨2⟩ ProcessList.empty scheduleABA).b = Phase.running st ∧
        "" ∈ st.usedTimestamps ∧
        (runPair apiFail apiFail ⟨1⟩ ⟨2⟩ ProcessList.empty scheduleABA).processList "" =
          none :=
  ⟨_, rfl, by decide, by decide⟩

theorem usesOwnIds_phaseStep (api : Nat → String) (proc : Process) (pl : ProcessList)
    (ph : Phase) (act : Action) (h : UsesOwnIds api ph) :
    UsesOwnIds api (phaseStep api proc pl ph act).1 := by
  cases ph with
  | idle =>
    cases act with
    | start text hostname =>
      intro t ht
      simp only [opStart, List.mem_singleton] at ht
      exact ⟨0, ht⟩
    | read line => exact h
    | finish status => exact h
  | running st =>
    cases act with
    | start text hostname => exact h
    | read line =>
      show ∀ t ∈ (opLoopBody api proc { st with processList := pl } line).usedTimestamps,
        ∃ k, t = api k
      rcases opLoopBody_cases api proc { st with processList := pl } line with
        ⟨_, heq⟩ | ⟨_, heq⟩
      · rw [heq]
        exact h
      · rw [heq]
        intro t ht
        simp only [List.mem_append, List.mem_singleton] at ht
        rcases ht with ht | ht
        · exact h t ht
        · exact ⟨_, ht⟩
    | finish status => trivial
  | done =>
    cases act <;> exact h

/-- A step of an execution keeps its own ids registered with its process. -/
theorem idsRegistered_phaseStep_self (api : Nat → String) (proc : Process)
    (pl : ProcessList) (ph : Phase) (act : Action) (h : IdsRegistered proc pl ph) :
    IdsRegistered proc (phaseStep api proc pl ph act).2 (phaseStep api proc pl ph act).1 := by
  cases ph with
  | idle =>
    cases act with
    | start text hostname =>
      intro t ht
      simp only [opStart, List.mem_singleton] at ht
      simp [phaseStep, opStart, ProcessList.set, ht]
    | read line => exact h
    | finish status => exact h
  | running st =>
    cases act with
    | start text hostname => exact h
    | read line =>
      show ∀ t ∈ (opLoopBody api proc { st with processList := pl } line).usedTimestamps,
        (opLoopBody api proc { st with processList := pl } line).processList t = some proc
      rcases opLoopBody_cases api proc { st with processList := pl } line with
        ⟨_, heq⟩ | ⟨_, heq⟩
      · rw [heq]
        exact h
      · rw [heq]
        intro t ht
        simp only [List.mem_append, List.mem_singleton] at ht
        by_cases hk : t = api st.usedTimestamps.length
        · simp [ProcessList.set, hk]
        · rcases ht with ht | ht
          · simp [ProcessList.set, hk, h t ht]
          · exact absurd ht hk
    | finish status => trivial
  | done =>
    cases act <;> exact h

/-- A step of an execution leaves the registry as it was at every key that is
not one of the ids its own posts return. -/
theorem phaseStep_frame (api : Nat → String) (proc : Process) (pl : ProcessList)
    (ph : Phase) (act : Action) (hown : UsesOwnIds api ph) (t : String)
    (ht : ∀ k, t ≠ api k) : (phaseStep api proc pl ph act).2 t = pl t := by
  cases ph with
  | idle =>
    cases act with
    | start text hostname => simp [phaseStep, opStart, ProcessList.set, ht 0]
    | read line => rfl
    | finish status => rfl
  | running st =>
    cases act with
    | start text hostname => rfl
    | read line =>
      show (opLoopBody api proc { st with processList := pl } line).processList t = pl t
      rcases opLoopBody_cases api proc { st with processList := pl } line with
        ⟨_, heq⟩ | ⟨_, heq⟩
      · rw [heq]
      · rw [heq]
        simp [ProcessList.set, ht st.usedTimestamps.length]
    | finish status =>
      show (st.usedTimestamps.foldl ProcessList.delete pl) t = pl t
      rw [foldl_delete_apply]
      have hnot : t ∉ st.usedTimestamps := by
        intro hmem
        obtain ⟨k, hk⟩ := hown t hmem
        exact ht k hk
      simp [hnot]
  | done =>
    cases act <;> rfl

theorem pairInvariant_pairStep (apiA apiB : Nat → String) (procA procB : Process)
    (hdisj : ∀ i j, apiA i ≠ apiB j) (s : Pair) (step : Actor × Action)
    (h : PairInvariant apiA apiB procB s) :
    PairInvariant apiA apiB procB (pairStep apiA apiB procA procB s step) := by
  obtain ⟨ha, hb, hreg⟩ := h
  obtain ⟨actor, act⟩ := step
  cases actor with
  | A =>
    refine ⟨usesOwnIds_phaseStep apiA procA s.processList s.a act ha, hb, ?_⟩
    show IdsRegistered procB (phaseStep apiA procA s.processList s.a act).2 s.b
    cases hph : s.b with
    | running st =>
      rw [hph] at hb hreg
      intro t ht
      obtain ⟨k, hk⟩ := hb t ht
      rw [phaseStep_frame apiA procA s.processList s.a act ha t
        (fun i heq => hdisj i k (heq.symm.trans hk))]
      exact hreg t ht
    | idle => trivial
    | done => trivial
  | B =>
    exact ⟨ha, usesOwnIds_phaseStep apiB procB s.processList s.b act hb,
      idsRegistered_phaseStep_self apiB procB s.processList s.b act hreg⟩

/-- C9, amended. For every two executions A and B sharing `processList` such
that no id returned by a post of A equals an id returned by a post of B (so not
when a post of each fails, both then getting the empty id), and for every
interleaving of their steps, whatever the updates do: while B is running, every
report id created by B maps to the process of B, in particular after the
finalizing step of A, which removes no entry that B registered. -/
theorem runPair_other_entries_kept (apiA apiB : Nat → String) (procA procB : Process)
    (pl : ProcessList) (schedule : List (Actor × Action))
    (hdisj : ∀ i j, apiA i ≠ apiB j) (st : OpState)
    (hb : (runPair apiA apiB procA procB pl schedule).b = Phase.running st) :
    ∀ t ∈ st.usedTimestamps,
      (runPair apiA apiB procA procB pl schedule).processList t = some procB := by
  have hinv : ∀ (sched : List (Actor × Action)) (s : Pair),
      PairInvariant apiA apiB procB s →
        PairInvariant apiA apiB procB (sched.foldl (pairStep apiA apiB procA procB) s) := by
    intro sched
    induction sched with
    | nil => intro s hs; exact hs
    | cons step rest ih =>
      intro s hs
      exact ih _ (pairInvariant_pairStep apiA apiB procA procB hdisj s step hs)
  have h := hinv schedule { processList := pl, a := .idle, b := .idle }
    ⟨trivial, trivial, trivial⟩
  have hreg := h.2.2
  change IdsRegistered procB (runPair apiA apiB procA procB pl schedule).processList
    (runPair apiA apiB procA procB pl schedule).b at hreg
  rw [hb] at hreg
  exact hreg

theorem apiOfA_ne_apiOfB (i j : Nat) : apiOfA i ≠ apiOfB j := by
  intro h
  have := congrArg String.data h
  simp [apiOfA, apiOfB, String.data_append] at this

/-- C9, amended, on the schedule where A starts, B starts and A finishes, the
posts of A returning `a0`, ... and those of B `b0`, ...: the id `b0` of B is
still registered with the process of B. -/
theorem runPair_other_entries_kept_witness :
    (∀ i j, apiOfA i ≠ apiOfB j) ∧
      (runPair apiOfA apiOfB ⟨1⟩ ⟨2⟩ ProcessList.empty scheduleABA).b =
        Phase.running (opStart apiOfB ⟨2⟩ "b" "h"
          (opStart apiOfA ⟨1⟩ "a" "h" ProcessList.empty).processList) ∧
      (runPair apiOfA apiOfB ⟨1⟩ ⟨2⟩ ProcessList.empty scheduleABA).processList "b0" =
        some ⟨2⟩ :=
  ⟨apiOfA_ne_apiOfB, rfl,
    runPair_other_entries_kept apiOfA apiOfB ⟨1⟩ ⟨2⟩ ProcessList.empty scheduleABA
      apiOfA_ne_apiOfB _ rfl "b0" (by decide)⟩

/-! ## The ids of a running execution on the shared registry -/

/-- C5 as stated fails. Two executions A (process 1) and B (process 2) share
an empty registry, and every post fails, so each gets the empty id. A starts,
then B starts: A is in its read loop, the empty id is one A created, and the
registry maps it to the process of B, not to that of A. -/
theorem runPair_overwritten_id_counterexample :
    ∃ st : OpState,
      (runPair apiFail apiFail ⟨1⟩ ⟨2⟩ ProcessList.empty scheduleAB).a = Phase.running st ∧
        "" ∈ st.usedTimestamps ∧
        (runPair apiFail apiFail ⟨1⟩ ⟨2⟩ ProcessList.empty scheduleAB).processList "" =
          some ⟨2⟩ ∧
        (runPair apiFail apiFail ⟨1⟩ ⟨2⟩ ProcessList.empty scheduleAB).processList "" ≠
          some ⟨1⟩ :=
  ⟨_, rfl, by decide, by decide, by decide⟩

theorem phaseRegistered_phaseStep_self (api : Nat → String) (proc : Process)
    (pl : ProcessList) (ph : Phase) (act : Action) (h : PhaseRegistered api proc pl ph) :
    PhaseRegistered api proc (phaseStep api proc pl ph act).2
      (phaseStep api proc pl ph act).1 := by
  cases ph with
  | idle =>
    cases act with
    | start text hostname => exact registryInvariant_opStart api proc text hostname pl
    | read line => exact h
    | finish status => exact h
  | running st =>
    cases act with
    | start text hostname => exact h
    | read line =>
      exact registryInvariant_opLoopBody api proc { st with processList := pl } line h
    | finish status => trivial
  | done =>
    cases act <;> exact h

theorem phaseRegistered_usesOwnIds (api : Nat → String) (proc : Process)
    (pl : ProcessList) (ph : Phase) (h : PhaseRegistered api proc pl ph) :
    UsesOwnIds api ph := by
  cases ph with
  | idle => trivial
  | done => trivial
  | running st =>
    intro t ht
    have hused : st.usedTimestamps = (List.range (postCount st.calls)).map api := h.1
    rw [hused] at ht
    obtain ⟨k, _, hk⟩ := List.mem_map.mp ht
    exact ⟨k, hk.symm⟩

/-- The registry invariant of an execution survives every change of the
registry that leaves the ids of its own posts alone. -/
theorem phaseRegistered_frame (api : Nat → String) (proc : Process)
    (pl pl' : ProcessList) (ph : Phase) (h : PhaseRegistered api proc pl ph)
    (hsame : ∀ t, (∃ k, t = api k) → pl' t = pl t) : PhaseRegistered api proc pl' ph := by
  have hown := phaseRegistered_usesOwnIds api proc pl ph h
  cases ph with
  | idle => trivial
  | done => trivial
  | running st =>
    obtain ⟨h1, h2, h3⟩ := h
    refine ⟨h1, h2, ?_⟩
    intro t ht
    show pl' t = some proc
    rw [hsame t (hown t ht)]
    exact h3 t ht

theorem pairInvariantOwn_pairStep (apiA apiB : Nat → String) (procA procB : Process)
    (hdisj : ∀ i j, apiA i ≠ apiB j) (s : Pair) (step : Actor × Action)
    (h : PairInvariantOwn apiA apiB procA s) :
    PairInvariantOwn apiA apiB procA (pairStep apiA apiB procA procB s step) := by
  obtain ⟨ha, hb⟩ := h
  obtain ⟨actor, act⟩ := step
  cases actor with
  | A => exact ⟨phaseRegistered_phaseStep_self apiA procA s.processList s.a act ha, hb⟩
  | B =>
    refine ⟨?_, usesOwnIds_phaseStep apiB procB s.processList s.b act hb⟩
    show PhaseRegistered apiA procA (phaseStep apiB procB s.processList s.b act).2 s.a
    apply phaseRegistered_frame apiA procA s.processList _ s.a ha
    intro t ht
    obtain ⟨k, hk⟩ := ht
    exact phaseStep_frame apiB procB s.processList s.b act hb t
      (fun j heq => hdisj k j (hk.symm.trans heq))

/-- C5, amended. For every two executions A and B sharing `processList` such
that no id returned by a post of A equals an id returned by a post of B (so not
when a post of each fails, both then getting the empty id), and for every
interleaving of their steps: at every point of the read loop of A (after the
initial registration and after every iteration), the ids A has used are exactly
the ids returned by the posts A made so far, the id of the first chunk among
them, and every one of them, ids of sealed blocks included, is present in
`processList` with the process of A; so a reply event targeting any of them
makes the handler of `run` send one SIGKILL to the negated pid of that one
process. -/
theorem runPair_ids_registered (apiA apiB : Nat → String) (procA procB : Process)
    (pl : ProcessList) (schedule : List (Actor × Action))
    (hdisj : ∀ i j, apiA i ≠ apiB j) (st : OpState)
    (ha : (runPair apiA apiB procA procB pl schedule).a = Phase.running st) :
    st.usedTimestamps = (List.range (postCount st.calls)).map apiA ∧
      apiA 0 ∈ st.usedTimestamps ∧
      ∀ t ∈ st.usedTimestamps,
        (runPair apiA apiB procA procB pl schedule).processList t = some procA ∧
          ∀ (channel : String) (fresh : Bool) (ch : Option String) (text' chan : String),
            (runMessageEvent channel fresh ch
                (runPair apiA apiB procA procB pl schedule).processList
                { SubType := "message_replied", Text := text', Channel := chan,
                  SubMessage := some ⟨t⟩ }).map (fun r => r.kills) =
              some [(negInt procA.Pid, Signal.SIGKILL)] := by
  have hinv : ∀ (sched : List (Actor × Action)) (s : Pair),
      PairInvariantOwn apiA apiB procA s →
        PairInvariantOwn apiA apiB procA
          (sched.foldl (pairStep apiA apiB procA procB) s) := by
    intro sched
    induction sched with
    | nil => intro s hs; exact hs
    | cons step rest ih =>
      intro s hs
      exact ih _ (pairInvariantOwn_pairStep apiA apiB procA procB hdisj s step hs)
  have h := (hinv schedule { processList := pl, a := .idle, b := .idle }
    ⟨trivial, trivial⟩).1
  change PhaseRegistered apiA procA (runPair apiA apiB procA procB pl schedule).processList
    (runPair apiA apiB procA procB pl schedule).a at h
  rw [ha] at h
  have hlen := registryInvariant_length apiA procA _ h
  obtain ⟨hused, hlast, hreg⟩ := h
  have hused' : st.usedTimestamps = (List.range (postCount st.calls)).map apiA := hused
  have hlen' : st.usedTimestamps.length = postCount st.calls := hlen
  have hlast' : st.usedTimestamps.getLast? = some st.timestamp := hlast
  refine ⟨hused', ?_, ?_⟩
  · have hpos : 0 < postCount st.calls := by
      cases hu : st.usedTimestamps with
      | nil => rw [hu] at hlast'; simp at hlast'
      | cons x xs => rw [hu] at hlen'; simp at hlen'; omega
    rw [hused']
    exact List.mem_map.mpr ⟨0, List.mem_range.mpr hpos, rfl⟩
  · intro t ht
    have ht' : (runPair apiA apiB procA procB pl schedule).processList t = some procA :=
      hreg t ht
    refine ⟨ht', ?_⟩
    intro channel fresh ch text' chan
    simp [runMessageEvent, ht']

theorem apiFresh_ne_apiOfB (i j : Nat) : apiFresh i ≠ apiOfB j := by
  intro h
  have := congrArg String.data h
  simp [apiFresh, apiOfB, String.data_append] at this

/-- In `rolloverState` the line did not fit the first block: the report `t1` is
the current one, after `t0`. -/
theorem rolloverState_ids :
    rolloverState.usedTimestamps = ["t0", "t1"] ∧ rolloverState.timestamp = "t1" := by
  have hlen := goLen_startX_append 3972
  rcases opLoopBody_cases apiFresh ⟨1⟩
      { startX with
        processList := (opStart apiOfB ⟨2⟩ "b" "h" startX.processList).processList }
      (repeatChar 3972 'a') with ⟨hle, _⟩ | ⟨_, heq⟩
  · have hle' : goLen (contentFromLines
        (startX.lines ++ [outputLine 1 (repeatChar 3972 'a')])) ≤ maxMessageLen := hle
    rw [hlen] at hle'
    simp [maxMessageLen] at hle'
  · rw [rolloverState, heq]
    exact ⟨by decide, by decide⟩

/-- C5, amended, on the schedule where A starts the command `x`, B starts, and
A reads a line that rolls over, the posts of A returning `t0`, `t1`, ... and
those of B `b0`, ...: the id `t0` of the first chunk of A is still registered
with the process of A while its chunk `t1` is the current one. -/
theorem runPair_ids_registered_witness :
    (∀ i j, apiFresh i ≠ apiOfB j) ∧
      (runPair apiFresh apiOfB ⟨1⟩ ⟨2⟩ ProcessList.empty scheduleRollover).a =
        Phase.running rolloverState ∧
      "t0" ∈ rolloverState.usedTimestamps ∧
      rolloverState.timestamp = "t1" ∧
      (runPair apiFresh apiOfB ⟨1⟩ ⟨2⟩ ProcessList.empty scheduleRollover).processList "t0" =
        some ⟨1⟩ :=
  ⟨apiFresh_ne_apiOfB, rfl, by rw [rolloverState_ids.1]; decide, rolloverState_ids.2,
    ((runPair_ids_registered apiFresh apiOfB ⟨1⟩ ⟨2⟩ ProcessList.empty scheduleRollover
      apiFresh_ne_apiOfB rolloverState rfl).2.2 "t0"
        (by rw [rolloverState_ids.1]; decide)).1⟩

end SlackCmd
